import Mathlib

/-!
Shallow embedding of the pygraham functional-programming toolkit
(src/pygraham/*.py) and proofs about its spec.

Conventions used throughout:
* a Python object reference that may be `None` is an `Option`, with `none`
  standing for Python `None`;
* a Python function that may raise is embedded with an `Option`/`Except`
  codomain (`none` / `.error` standing for the raised exception);
* side-effect claims ("`fn` is never invoked") are settled against an
  instrumented copy of the relevant operation that threads an invocation
  counter through exactly the same control flow as the plain embedding.
-/

set_option autoImplicit false

namespace PyGraham

/-! ### Maybe (src/pygraham/maybe.py)

A `Maybe` object stores a boxed value `_value` (possibly `None`) together
with the `_is_nothing` flag, exactly as `Maybe.__init__` does. -/

/-- Embedding of the `Maybe` class: the `_value` box paired with the
`_is_nothing` flag. -/
structure Maybe (α : Type) where
  value : Option α
  isNothing : Bool
  deriving Repr, DecidableEq

/-- Embedding of `Maybe.nothing`: `Maybe(None, True)`. -/
def Maybe.nothing {α : Type} : Maybe α := ⟨none, true⟩

/-- Embedding of `Maybe.of`: `None` becomes Nothing, anything else is wrapped
with the flag cleared. -/
def Maybe.of {α : Type} (value : Option α) : Maybe α :=
  match value with
  | none => Maybe.nothing
  | some v => ⟨some v, false⟩

/-- Embedding of `Maybe.just`: wraps the argument with the flag cleared,
without the `None` check that `of` performs. -/
def Maybe.just {α : Type} (value : Option α) : Maybe α := ⟨value, false⟩

/-- Embedding of `Maybe.is_nothing`. -/
def Maybe.is_nothing {α : Type} (m : Maybe α) : Bool := m.isNothing

/-- Embedding of `Maybe.is_just`: `not self._is_nothing`. -/
def Maybe.is_just {α : Type} (m : Maybe α) : Bool := !m.isNothing

/-- Embedding of `Maybe.get`: raises `ValueError` on Nothing, otherwise
returns the boxed value. -/
def Maybe.get {α : Type} (m : Maybe α) : Except String (Option α) :=
  if m.isNothing then Except.error "Cannot get value from Nothing"
  else Except.ok m.value

/-- Embedding of `Maybe.map`: Nothing short-circuits, otherwise the result is
rebuilt through `Maybe.of fn(self._value)`. -/
def Maybe.map {α β : Type} (m : Maybe α) (fn : Option α → Option β) : Maybe β :=
  if m.isNothing then Maybe.nothing
  else Maybe.of (fn m.value)

/-- Instrumented copy of `Maybe.map` that counts how many times `fn` is
invoked; the control flow is identical to `Maybe.map`. -/
def Maybe.mapCount {α β : Type} (m : Maybe α) (fn : Option α → Option β)
    (calls : Nat) : Maybe β × Nat :=
  if m.isNothing then (Maybe.nothing, calls)
  else (Maybe.of (fn m.value), calls + 1)

/-- Embedding of `Maybe.__eq__` (the branch where both operands are `Maybe`). -/
def Maybe.beq {α : Type} [BEq α] (m other : Maybe α) : Bool :=
  if m.isNothing && other.isNothing then true
  else if m.isNothing || other.isNothing then false
  else m.value == other.value

/-! ### Either (src/pygraham/either.py)

An `Either` object stores `_value` plus the `_is_left` flag; the only
constructors are `Either.left` and `Either.right` and every method
dispatches on the flag, so the faithful embedding is the corresponding
tagged sum. -/

/-- Embedding of the `Either` class: `left` is `Either(value, True)` and
`right` is `Either(value, False)`. -/
inductive Either (γ β : Type) where
  | left : γ → Either γ β
  | right : β → Either γ β
  deriving Repr, DecidableEq

/-- Embedding of `Either.map`: the Left branch rebuilds
`Either.left(self._value)` with the payload untouched; the Right branch
applies `fn`. -/
def Either.map {γ β δ : Type} (e : Either γ β) (fn : β → δ) : Either γ δ :=
  match e with
  | .left v => .left v
  | .right v => .right (fn v)

/-- Embedding of `Either.flat_map`: Left short-circuits, Right returns
`fn(self._value)` directly. -/
def Either.flat_map {γ β δ : Type} (e : Either γ β) (fn : β → Either γ δ) :
    Either γ δ :=
  match e with
  | .left v => .left v
  | .right v => fn v

/-- Embedding of `Either.fold`: applies `left_fn` on Left, `right_fn` on
Right. -/
def Either.fold {γ β δ : Type} (e : Either γ β) (left_fn : γ → δ)
    (right_fn : β → δ) : δ :=
  match e with
  | .left v => left_fn v
  | .right v => right_fn v

/-- Instrumented copy of `Either.map` counting invocations of `fn`. -/
def Either.mapCount {γ β : Type} (e : Either γ β) (fn : β → β) (calls : Nat) :
    Either γ β × Nat :=
  match e with
  | .left v => (.left v, calls)
  | .right v => (.right (fn v), calls + 1)

/-- Instrumented copy of `Either.flat_map` counting invocations of `fn`. -/
def Either.flatMapCount {γ β : Type} (e : Either γ β) (fn : β → Either γ β)
    (calls : Nat) : Either γ β × Nat :=
  match e with
  | .left v => (.left v, calls)
  | .right v => (fn v, calls + 1)

/-- Instrumented copy of `Either.fold` that also reports how many times each
handler was invoked. -/
def Either.foldCount {γ β δ : Type} (e : Either γ β) (left_fn : γ → δ)
    (right_fn : β → δ) (leftCalls rightCalls : Nat) : δ × Nat × Nat :=
  match e with
  | .left v => (left_fn v, leftCalls + 1, rightCalls)
  | .right v => (right_fn v, leftCalls, rightCalls + 1)

/-- One step of a method chain on an `Either`: either a `map` or a
`flat_map` call with its supplied function. -/
inductive EitherOp (γ β : Type) where
  | map : (β → β) → EitherOp γ β
  | flatMap : (β → Either γ β) → EitherOp γ β

/-- Runs a chain of `map` / `flat_map` calls left to right, threading the
shared invocation counter through the instrumented methods. -/
def runChainCount {γ β : Type} :
    List (EitherOp γ β) → Either γ β → Nat → Either γ β × Nat
  | [], e, c => (e, c)
  | .map fn :: ops, e, c =>
      let r := Either.mapCount e fn c
      runChainCount ops r.1 r.2
  | .flatMap fn :: ops, e, c =>
      let r := Either.flatMapCount e fn c
      runChainCount ops r.1 r.2

/-! ### ImmutableList (src/pygraham/immutable.py)

To make "returns a new list and the receiver is never modified" a real
statement, Python list objects are modelled explicitly: a `Store` is the heap
of list objects, an object id is an index into it, and an `ImmutableList`
holds the id of its private backing list `_items`.  Each mutator is the
store-passing translation of its Python body, statement by statement. -/

/-- Heap of Python list objects; an id is an index into `cells`. -/
structure Store (α : Type) where
  cells : List (List α)

/-- Allocates a fresh list object holding `xs` and returns its id. -/
def Store.alloc {α : Type} (s : Store α) (xs : List α) : Store α × Nat :=
  (⟨s.cells ++ [xs]⟩, s.cells.length)

/-- Reads the contents of the list object `i`. -/
def Store.read {α : Type} (s : Store α) (i : Nat) : List α :=
  s.cells.getD i []

/-- Overwrites the contents of the list object `i` (an in-place mutation such
as `list.append`). -/
def Store.write {α : Type} (s : Store α) (i : Nat) (xs : List α) : Store α :=
  ⟨s.cells.set i xs⟩

/-- Embedding of `ImmutableList.__init__`: `self._items = list(items)`
allocates a private copy of the argument. -/
def ImmutableList.init {α : Type} (s : Store α) (items : List α) :
    Store α × Nat :=
  Store.alloc s items

/-- Embedding of the Python slice `self._items[:n]` used by `take`: a
negative bound counts from the end, clamped at zero. -/
def pySliceTo {α : Type} (l : List α) (n : Int) : List α :=
  if n < 0 then l.take (l.length - (-n).toNat) else l.take n.toNat

/-- Embedding of the Python slice `self._items[n:]` used by `drop`. -/
def pySliceFrom {α : Type} (l : List α) (n : Int) : List α :=
  if n < 0 then l.drop (l.length - (-n).toNat) else l.drop n.toNat

/-- Embedding of `sorted(self._items, key=key, reverse=reverse)`: a stable
sort on the extracted keys, descending when `reverse` is set (ties keep the
original relative order either way). -/
def pySorted {α κ : Type} [LinearOrder κ] (l : List α) (key : α → κ)
    (rev : Bool) : List α :=
  l.mergeSort (fun a b =>
    if rev then decide (key b ≤ key a) else decide (key a ≤ key b))

/-- Embedding of `ImmutableList.append`: copy `self._items`, push `item` onto
the copy in place, then hand the copy to the constructor. -/
def ImmutableList.append {α : Type} (s : Store α) (self : Nat) (item : α) :
    Store α × Nat :=
  let r₁ := Store.alloc s (Store.read s self)
  let s₂ := Store.write r₁.1 r₁.2 (Store.read r₁.1 r₁.2 ++ [item])
  ImmutableList.init s₂ (Store.read s₂ r₁.2)

/-- Embedding of `ImmutableList.prepend`: `[item] + self._items` builds a
fresh list, handed to the constructor. -/
def ImmutableList.prepend {α : Type} (s : Store α) (self : Nat) (item : α) :
    Store α × Nat :=
  let r₁ := Store.alloc s ([item] ++ Store.read s self)
  ImmutableList.init r₁.1 (Store.read r₁.1 r₁.2)

/-- Embedding of `ImmutableList.concat`: `self._items + other._items` builds
a fresh list, handed to the constructor. -/
def ImmutableList.concat {α : Type} (s : Store α) (self other : Nat) :
    Store α × Nat :=
  let r₁ := Store.alloc s (Store.read s self ++ Store.read s other)
  ImmutableList.init r₁.1 (Store.read r₁.1 r₁.2)

/-- Embedding of `ImmutableList.map`: the list comprehension builds a fresh
list, handed to the constructor. -/
def ImmutableList.map {α : Type} (s : Store α) (self : Nat) (fn : α → α) :
    Store α × Nat :=
  let r₁ := Store.alloc s ((Store.read s self).map fn)
  ImmutableList.init r₁.1 (Store.read r₁.1 r₁.2)

/-- Embedding of `ImmutableList.filter`. -/
def ImmutableList.filter {α : Type} (s : Store α) (self : Nat)
    (pred : α → Bool) : Store α × Nat :=
  let r₁ := Store.alloc s ((Store.read s self).filter pred)
  ImmutableList.init r₁.1 (Store.read r₁.1 r₁.2)

/-- Embedding of `ImmutableList.take`: the slice `self._items[:n]` builds a
fresh list. -/
def ImmutableList.take {α : Type} (s : Store α) (self : Nat) (n : Int) :
    Store α × Nat :=
  let r₁ := Store.alloc s (pySliceTo (Store.read s self) n)
  ImmutableList.init r₁.1 (Store.read r₁.1 r₁.2)

/-- Embedding of `ImmutableList.drop`: the slice `self._items[n:]` builds a
fresh list. -/
def ImmutableList.drop {α : Type} (s : Store α) (self : Nat) (n : Int) :
    Store α × Nat :=
  let r₁ := Store.alloc s (pySliceFrom (Store.read s self) n)
  ImmutableList.init r₁.1 (Store.read r₁.1 r₁.2)

/-- Embedding of `ImmutableList.reverse`: `list(reversed(self._items))`
builds a fresh list. -/
def ImmutableList.reverse {α : Type} (s : Store α) (self : Nat) :
    Store α × Nat :=
  let r₁ := Store.alloc s (Store.read s self).reverse
  ImmutableList.init r₁.1 (Store.read r₁.1 r₁.2)

/-- Embedding of `ImmutableList.sort`: `sorted` builds a fresh list. -/
def ImmutableList.sort {α κ : Type} [LinearOrder κ] (s : Store α) (self : Nat)
    (key : α → κ) (rev : Bool) : Store α × Nat :=
  let r₁ := Store.alloc s (pySorted (Store.read s self) key rev)
  ImmutableList.init r₁.1 (Store.read r₁.1 r₁.2)

/-- What C3 asks of a mutator called on the object `self` in store `s`: the
receiver's cell is unchanged, the returned object is a different one, and its
contents are `content`. -/
def MutatorOk {α : Type} (s : Store α) (self : Nat) (result : Store α × Nat)
    (content : List α) : Prop :=
  result.1.read self = s.read self ∧
  result.2 ≠ self ∧
  result.1.read result.2 = content

/-! ### LazySequence (src/pygraham/lazy.py)

A Python iterator is embedded as a cursor: a state of type `σ` together with
a step function that either yields the next element and the advanced cursor,
or raises `StopIteration` (`none`).  Each `LazySequence` combinator is the
translation of the corresponding generator / `islice` composition; forcing
(`to_list`) is a fueled pull loop, so that termination of a pull over an
infinite upstream is the statement that the result is independent of any
sufficiently large fuel. -/

/-- Step function of a Python iterator with cursor state `σ`. -/
def IterStep (σ α : Type) : Type := σ → Option (α × σ)

/-- Embedding of `iter(list)`: the cursor is the list of elements not yet
produced. -/
def listIter {α : Type} : IterStep (List α) α :=
  fun l =>
    match l with
    | [] => none
    | x :: xs => some (x, xs)

/-- Embedding of the `LazySequence.infinite` generator: yields the current
value and advances it by `step`; it never raises `StopIteration`. -/
def infiniteIter (step : Int) : IterStep Int Int :=
  fun current => some (current, current + step)

/-- Embedding of `LazySequence.map`: the generator `fn(x) for x in upstream`
pulls one upstream element per downstream pull and applies `fn` to it. -/
def mapIter {σ α β : Type} (fn : α → β) (st : IterStep σ α) : IterStep σ β :=
  fun s =>
    match st s with
    | none => none
    | some (x, s₁) => some (fn x, s₁)

/-- Instrumented copy of `mapIter` whose cursor also counts how many times
`fn` has been invoked. -/
def mapIterCount {σ α β : Type} (fn : α → β) (st : IterStep σ α) :
    IterStep (σ × Nat) β :=
  fun p =>
    match st p.1 with
    | none => none
    | some (x, s₁) => some (fn x, (s₁, p.2 + 1))

/-- Instrumentation wrapper that counts successful pulls from an upstream
iterator. -/
def pullCount {σ α : Type} (st : IterStep σ α) : IterStep (σ × Nat) α :=
  fun p =>
    match st p.1 with
    | none => none
    | some (x, s₁) => some (x, (s₁, p.2 + 1))

/-- Embedding of `islice(upstream, n)` as used by `LazySequence.take`: the
cursor carries the remaining quota; creating it pulls nothing. -/
def isliceIter {σ α : Type} (st : IterStep σ α) : IterStep (σ × Nat) α :=
  fun p =>
    if p.2 = 0 then none
    else
      match st p.1 with
      | none => none
      | some (x, s₁) => some (x, (s₁, p.2 - 1))

/-- Embedding of the loop in `LazySequence.drop`: pull and discard up to `n`
elements right away, stopping early on `StopIteration`; returns the advanced
cursor and the number of elements actually consumed. -/
def dropAdvance {σ α : Type} (st : IterStep σ α) : Nat → σ → σ × Nat
  | 0, s => (s, 0)
  | n + 1, s =>
      match st s with
      | none => (s, 0)
      | some (_, s₁) =>
          let r := dropAdvance st n s₁
          (r.1, r.2 + 1)

/-- Embedding of `LazySequence.take`: wraps the untouched cursor together
with the quota; no element is pulled at call time. -/
def LazySequence.take {σ α : Type} (st : IterStep σ α) (s : σ) (n : Nat) :
    IterStep (σ × Nat) α × (σ × Nat) :=
  (isliceIter st, (s, n))

/-- Embedding of `LazySequence.drop`: eagerly advances the shared cursor at
call time and returns the same iterator over the advanced cursor. -/
def LazySequence.drop {σ α : Type} (st : IterStep σ α) (s : σ) (n : Nat) :
    IterStep σ α × σ :=
  (st, (dropAdvance st n s).1)

/-- Embedding of `LazySequence.to_list` (forcing): pulls until
`StopIteration`, spending one unit of fuel per pull; returns the produced
elements and the final cursor. -/
def toListFuel {σ α : Type} (st : IterStep σ α) : Nat → σ → List α × σ
  | 0, s => ([], s)
  | fuel + 1, s =>
      match st s with
      | none => ([], s)
      | some (x, s₁) =>
          let r := toListFuel st fuel s₁
          (x :: r.1, r.2)

/-- First `n` values of `fn` along the arithmetic progression starting at
`start` with the given step. -/
def arithMap {β : Type} (fn : Int → β) (start step : Int) : Nat → List β
  | 0 => []
  | n + 1 => fn start :: arithMap fn (start + step) step n

/-! ### Pattern dispatcher (src/pygraham/pattern.py)

The four kinds of pattern specifier are embedded as a tagged union; a type
specifier becomes its `isinstance` test, and a predicate specifier becomes a
function whose `none` result stands for an exception raised while it ran.
Handlers may be callables or plain (constant) values, as in `Case.execute`. -/

/-- Embedding of the pattern specifier kinds accepted by `case`. -/
inductive Pattern (α : Type) where
  | wildcard : Pattern α
  | typeTest : (α → Bool) → Pattern α
  | callable : (α → Option Bool) → Pattern α
  | literal : α → Pattern α

/-- Embedding of a handler: a callable, or any non-callable value returned
as-is by `Case.execute`. -/
inductive Handler (α β : Type) where
  | callable : (α → β) → Handler α β
  | const : β → Handler α β

/-- Embedding of the `Case` class. -/
structure Case (α β : Type) where
  pattern : Pattern α
  handler : Handler α β

/-- Embedding of `Case.matches`: wildcard always accepts, a type specifier
runs its `isinstance` test, a predicate accepts iff it returns truthy and
counts as non-matching if it raises, and anything else is compared by
equality. -/
def Case.matches {α β : Type} [BEq α] (c : Case α β) (value : α) : Bool :=
  match c.pattern with
  | .wildcard => true
  | .typeTest t => t value
  | .callable p =>
      match p value with
      | some b => b
      | none => false
  | .literal w => w == value

/-- Embedding of `Case.execute`: callables are applied to the scrutinee,
anything else is returned unchanged. -/
def Case.execute {α β : Type} (c : Case α β) (value : α) : β :=
  match c.handler with
  | .callable h => h value
  | .const b => b

/-- Embedding of the `match` function: first accepting case wins, and a
`ValueError` is raised when none accepts. -/
def matchCases {α β : Type} [BEq α] (value : α) :
    List (Case α β) → Except String β
  | [] => Except.error "No matching case for value"
  | c :: cs =>
      if c.matches value then Except.ok (c.execute value)
      else matchCases value cs

/-- Instrumented copy of `matchCases` that also counts how many cases had
their pattern evaluated against the scrutinee. -/
def matchCasesCount {α β : Type} [BEq α] (value : α) (checked : Nat) :
    List (Case α β) → Except String β × Nat
  | [] => (Except.error "No matching case for value", checked)
  | c :: cs =>
      if c.matches value then (Except.ok (c.execute value), checked + 1)
      else matchCasesCount value (checked + 1) cs

/-! ### Function combinators (src/pygraham/compose.py)

Python's variadic `*functions` is a list of unary functions; `reduce` with
no initial value is a left fold started from the first element. -/

/-- Embedding of `compose`: no functions yields the identity, otherwise
`reduce(_compose, functions)` pairwise-composes left to right, so the
rightmost function is applied first. -/
def compose {α : Type} (functions : List (α → α)) : α → α :=
  match functions with
  | [] => fun x => x
  | f :: rest => rest.foldl (fun f g => fun x => f (g x)) f

/-- Embedding of `pipe`: `compose` on the reversed argument list. -/
def pipe {α : Type} (functions : List (α → α)) : α → α :=
  compose functions.reverse

/-- Right-to-left application of a list of functions, the specification
`f1(f2(...fn(x)))` that C8 compares `compose` against. -/
def applyChain {α : Type} (functions : List (α → α)) (x : α) : α :=
  functions.foldr (fun f r => f r) x

/-- Embedding of calling `fn(*args)` when `fn` has exactly three positional
parameters: any other argument count raises `TypeError`. -/
def apply3 {α β : Type} (f : α → α → α → β) : List α → Option β
  | [a, b, c] => some (f a b c)
  | _ => none

/-- Embedding of the curried wrapper that `curry` builds for a
three-parameter function, applied to a chain of calls: `args` is what the
wrapper has accumulated so far and each pack holds the positional arguments
of one call.  Once the accumulated count reaches the arity the wrapped
function is called with everything; otherwise a new partially-applied
callable holding the combined arguments is returned and receives the next
pack.  A chain that ends while the wrapper still wants more arguments, or
that keeps calling after the function has been applied, yields no value. -/
def curriedRun {α β : Type} (f : α → α → α → β) (args : List α) :
    List (List α) → Option β
  | [] => none
  | more :: rest =>
      let combined := args ++ more
      if 3 ≤ combined.length then
        match rest with
        | [] => apply3 f combined
        | _ => none
      else curriedRun f combined rest

/-! ### Store lemmas -/

theorem Store.read_alloc_lt {α : Type} (s : Store α) (xs : List α) (i : Nat)
    (h : i < s.cells.length) : (s.alloc xs).1.read i = s.read i := by
  simp [Store.alloc, Store.read, List.getD, List.getElem?_append, h]

theorem Store.read_alloc_self {α : Type} (s : Store α) (xs : List α) :
    (s.alloc xs).1.read (s.alloc xs).2 = xs := by
  simp [Store.alloc, Store.read, List.getD]

theorem Store.alloc_length {α : Type} (s : Store α) (xs : List α) :
    (s.alloc xs).1.cells.length = s.cells.length + 1 := by
  simp [Store.alloc]

theorem Store.read_write_ne {α : Type} (s : Store α) (j : Nat) (xs : List α)
    (i : Nat) (h : i ≠ j) : (s.write j xs).read i = s.read i := by
  simp only [Store.write, Store.read]
  rw [List.getD_eq_getElem?_getD, List.getD_eq_getElem?_getD,
    List.getElem?_set_ne (Ne.symm h)]

theorem Store.read_write_self {α : Type} (s : Store α) (j : Nat) (xs : List α)
    (h : j < s.cells.length) : (s.write j xs).read j = xs := by
  simp [Store.write, Store.read, List.getD, List.getElem?_set_self, h]

theorem Store.write_length {α : Type} (s : Store α) (j : Nat) (xs : List α) :
    (s.write j xs).cells.length = s.cells.length := by
  simp [Store.write]

/-- Common shape of every mutator except `append`: a fresh list with content
`c` is built and handed to the constructor. -/
theorem init_alloc_spec {α : Type} (s : Store α) (c : List α) (i : Nat)
    (h : i < s.cells.length) :
    MutatorOk s i
      (ImmutableList.init (Store.alloc s c).1
        ((Store.alloc s c).1.read (Store.alloc s c).2)) c := by
  rw [MutatorOk, Store.read_alloc_self]
  have h₁ : i < (Store.alloc s c).1.cells.length := by
    rw [Store.alloc_length]; omega
  refine ⟨?_, ?_, ?_⟩
  · rw [show ImmutableList.init (Store.alloc s c).1 c
        = Store.alloc (Store.alloc s c).1 c from rfl]
    rw [Store.read_alloc_lt _ _ _ h₁, Store.read_alloc_lt _ _ _ h]
  · show (Store.alloc (Store.alloc s c).1 c).2 ≠ i
    simp [Store.alloc]
    omega
  · exact Store.read_alloc_self (Store.alloc s c).1 c

theorem set_append_length {α : Type} (l : List α) (a b : α) :
    (l ++ [a]).set l.length b = l ++ [b] := by
  induction l with
  | nil => rfl
  | cons x xs ih => simp [List.set, ih]

theorem read_snoc {α : Type} (l : List (List α)) (x : List α) :
    (Store.mk (l ++ [x])).read l.length = x := by
  simp [Store.read, List.getD]

/-- The `append` mutator: copy, in-place push on the copy, constructor copy;
the receiver is untouched and the new object holds the pushed sequence. -/
theorem append_spec {α : Type} (s : Store α) (self : Nat) (item : α)
    (hs : self < s.cells.length) :
    MutatorOk s self (ImmutableList.append s self item)
      (s.read self ++ [item]) := by
  have key : ImmutableList.append s self item
      = (⟨s.cells ++ [s.read self ++ [item]] ++ [s.read self ++ [item]]⟩,
          s.cells.length + 1) := by
    show ImmutableList.init
        (Store.write ⟨s.cells ++ [s.read self]⟩ s.cells.length
          ((Store.mk (s.cells ++ [s.read self])).read s.cells.length ++ [item]))
        ((Store.write ⟨s.cells ++ [s.read self]⟩ s.cells.length
          ((Store.mk (s.cells ++ [s.read self])).read s.cells.length ++
            [item])).read s.cells.length) = _
    rw [read_snoc]
    rw [show Store.write ⟨s.cells ++ [s.read self]⟩ s.cells.length
          (s.read self ++ [item])
        = Store.mk (s.cells ++ [s.read self ++ [item]]) by
      simp only [Store.write]
      rw [set_append_length]]
    rw [read_snoc]
    show ((Store.mk ((s.cells ++ [s.read self ++ [item]]) ++
        [s.read self ++ [item]])),
      (s.cells ++ [s.read self ++ [item]]).length) = _
    simp
  rw [MutatorOk, key]
  refine ⟨?_, by omega, ?_⟩
  · show (Store.mk (s.cells ++ [s.read self ++ [item]] ++
        [s.read self ++ [item]])).read self = _
    have h₂ : self < (s.cells ++ [s.read self ++ [item]]).length := by
      simp; omega
    simp [Store.read, List.getD, List.getElem?_append, hs, h₂]
  · show (Store.mk (s.cells ++ [s.read self ++ [item]] ++
        [s.read self ++ [item]])).read (s.cells.length + 1) = _
    rw [show s.cells.length + 1
        = (s.cells ++ [s.read self ++ [item]]).length by simp]
    exact read_snoc _ _

/-! ### LazySequence lemmas -/

theorem toListFuel_pipeline {β : Type} (fn : Int → β) (step : Int) :
    ∀ (n fuel : Nat), n ≤ fuel → ∀ (current : Int) (pulls calls : Nat),
    toListFuel (isliceIter (mapIterCount fn (pullCount (infiniteIter step))))
        fuel (((current, pulls), calls), n)
      = (arithMap fn current step n,
          (((current + step * n, pulls + n), calls + n), 0)) := by
  intro n
  induction n with
  | zero =>
      intro fuel _ current pulls calls
      cases fuel with
      | zero => simp [toListFuel, arithMap]
      | succ fuel => simp [toListFuel, isliceIter, arithMap]
  | succ n ih =>
      intro fuel hf current pulls calls
      cases fuel with
      | zero => omega
      | succ fuel =>
          have hrec := ih fuel (by omega) (current + step) (pulls + 1)
            (calls + 1)
          simp only [toListFuel, isliceIter, mapIterCount, pullCount,
            infiniteIter, Nat.succ_ne_zero, if_false, Nat.add_sub_cancel,
            hrec, arithMap]
          simp only [Prod.mk.injEq, true_and, and_true]
          refine ⟨⟨?_, by omega⟩, by omega⟩
          push_cast
          ring

theorem toListFuel_list {α : Type} :
    ∀ (l : List α) (fuel : Nat), l.length ≤ fuel →
    toListFuel listIter fuel l = (l, ([] : List α)) := by
  intro l
  induction l with
  | nil =>
      intro fuel _
      cases fuel with
      | zero => rfl
      | succ fuel => simp [toListFuel, listIter]
  | cons x xs ih =>
      intro fuel hf
      cases fuel with
      | zero => simp at hf
      | succ fuel => simp [toListFuel, listIter, ih fuel (by simpa using hf)]

theorem dropAdvance_list {α : Type} :
    ∀ (n : Nat) (l : List α),
    dropAdvance listIter n l = (l.drop n, min n l.length) := by
  intro n
  induction n with
  | zero => intro l; simp [dropAdvance]
  | succ n ih =>
      intro l
      cases l with
      | nil => simp [dropAdvance, listIter]
      | cons x xs =>
          simp only [dropAdvance, listIter, ih xs, List.drop_succ_cons,
            List.length_cons]
          simp only [Prod.mk.injEq, true_and, and_true]
          omega

/-! ### Pattern dispatcher lemmas -/

theorem matchCases_first {α β : Type} [BEq α] (v : α) :
    ∀ (cs₁ : List (Case α β)) (c : Case α β) (cs₂ : List (Case α β)),
    (∀ c₀ ∈ cs₁, c₀.matches v = false) → c.matches v = true →
    matchCases v (cs₁ ++ c :: cs₂) = Except.ok (c.execute v) := by
  intro cs₁
  induction cs₁ with
  | nil =>
      intro c cs₂ _ h₂
      simp [matchCases, h₂]
  | cons c₀ cs ih =>
      intro c cs₂ h₁ h₂
      have h₀ : c₀.matches v = false := h₁ c₀ (by simp)
      simp only [List.cons_append, matchCases, h₀, Bool.false_eq_true,
        if_false]
      exact ih c cs₂ (fun x hx => h₁ x (by simp [hx])) h₂

theorem matchCasesCount_first {α β : Type} [BEq α] (v : α) :
    ∀ (cs₁ : List (Case α β)) (c : Case α β) (cs₂ : List (Case α β))
      (k : Nat),
    (∀ c₀ ∈ cs₁, c₀.matches v = false) → c.matches v = true →
    matchCasesCount v k (cs₁ ++ c :: cs₂)
      = (Except.ok (c.execute v), k + cs₁.length + 1) := by
  intro cs₁
  induction cs₁ with
  | nil =>
      intro c cs₂ k _ h₂
      simp [matchCasesCount, h₂]
  | cons c₀ cs ih =>
      intro c cs₂ k h₁ h₂
      have h₀ : c₀.matches v = false := h₁ c₀ (by simp)
      simp only [List.cons_append, matchCasesCount, h₀, Bool.false_eq_true,
        if_false]
      rw [List.append_eq, ih c cs₂ (k + 1) (fun x hx => h₁ x (by simp [hx])) h₂]
      simp only [Prod.mk.injEq, List.length_cons, true_and]
      omega

theorem matchCases_error_iff {α β : Type} [BEq α] (v : α) :
    ∀ cs : List (Case α β),
    ((∃ e, matchCases v cs = Except.error e) ↔
      ∀ c ∈ cs, c.matches v = false) ∧
    (∀ e, matchCases v cs = Except.error e →
      e = "No matching case for value") := by
  intro cs
  induction cs with
  | nil =>
      refine ⟨?_, ?_⟩
      · simp [matchCases]
      · intro e he
        simpa [matchCases] using he.symm
  | cons c cs ih =>
      by_cases hc : c.matches v = true
      · refine ⟨?_, ?_⟩
        · simp [matchCases, hc]
        · intro e he
          simp [matchCases, hc] at he
      · have hc₀ : c.matches v = false := by
          cases h : c.matches v with
          | true => exact absurd h hc
          | false => rfl
        refine ⟨?_, ?_⟩
        · simp only [matchCases, hc₀, Bool.false_eq_true, if_false]
          rw [ih.1]
          constructor
          · intro hall c₀ hc₀mem
            rcases List.mem_cons.mp hc₀mem with h | h
            · rw [h]; exact hc₀
            · exact hall c₀ h
          · intro hall c₀ h
            exact hall c₀ (List.mem_cons_of_mem c h)
        · intro e he
          simp only [matchCases, hc₀, Bool.false_eq_true, if_false] at he
          exact ih.2 e he

/-! ### Function combinator lemmas -/

theorem compose_foldl {α : Type} :
    ∀ (rest : List (α → α)) (acc : α → α) (x : α),
    rest.foldl (fun f g => fun y => f (g y)) acc x = acc (applyChain rest x) := by
  intro rest
  induction rest with
  | nil => intro acc x; rfl
  | cons g rest ih =>
      intro acc x
      show List.foldl _ (fun y => acc (g y)) rest x = _
      rw [ih]
      rfl

/-! ### Theorems: Maybe claims -/

/-- C1: for every Maybe `m` and function `fn`, if `m` is Present with boxed
value `v` then `m.map fn` is `Maybe.of (fn v)` and in particular collapses to
Nothing when `fn v` is the `None` sentinel; if `m` is Nothing then `m.map fn`
is Nothing and `fn` is never invoked (the invocation counter is unchanged). -/
theorem C1_maybe_map (α β : Type) (m : Maybe α) (fn : Option α → Option β)
    (v : Option α) :
    (m.isNothing = false → m.value = v →
      (m.map fn = Maybe.of (fn v) ∧
        (fn v = none → m.map fn = Maybe.nothing))) ∧
    (m.isNothing = true →
      (m.map fn = Maybe.nothing ∧ ∀ c : Nat, (m.mapCount fn c).2 = c)) := by
  constructor
  · intro hj hv
    subst hv
    constructor
    · simp [Maybe.map, hj]
    · intro hn
      simp [Maybe.map, hj, hn, Maybe.of]
  · intro hn
    constructor
    · simp [Maybe.map, hn]
    · intro c
      simp [Maybe.mapCount, hn]

theorem C1_maybe_map_witness :
    ((Maybe.just (some 3) : Maybe Nat).map (fun _ => (none : Option Nat)) =
      Maybe.nothing) ∧
    (((Maybe.nothing : Maybe Nat).mapCount (fun v => v) 0).2 = 0) :=
  ⟨((C1_maybe_map Nat Nat (Maybe.just (some 3)) (fun _ => none)
      (some 3)).1 rfl rfl).2 rfl,
   ((C1_maybe_map Nat Nat Maybe.nothing (fun v => v) none).2 rfl).2 0⟩

/-- C10: the direct constructor `Just(None)` answers true to `is_just` and
`get` returns `None`, yet mapping the identity function over it yields
Nothing (because `map` re-wraps through the sentinel-collapsing `of`), so the
Present value is not preserved: `Just(None)` itself is not equal to Nothing. -/
theorem C10_just_none_not_preserved :
    (Maybe.just (none : Option Nat)).is_just = true ∧
    (Maybe.just (none : Option Nat)).get = Except.ok none ∧
    (Maybe.just (none : Option Nat)).map (fun v => v) =
      (Maybe.nothing : Maybe Nat) ∧
    Maybe.beq (Maybe.just (none : Option Nat)) Maybe.nothing = false ∧
    Maybe.just (none : Option Nat) ≠ Maybe.nothing := by
  refine ⟨rfl, rfl, rfl, rfl, ?_⟩
  intro h
  exact Bool.noConfusion (congrArg Maybe.isNothing h)

/-! ### Theorems: Either claim -/

/-- C2: starting from `Left e`, any chain of `map` and `flat_map` calls
invokes none of the supplied functions (the shared counter is unchanged) and
still ends in `Left e` with the payload untouched; a final
`fold onError onSuccess` then invokes exactly the `onError` handler, on `e`. -/
theorem C2_either_left_short_circuit (γ β δ : Type) (e : γ)
    (ops : List (EitherOp γ β)) (c : Nat) (onError : γ → δ) (onSuccess : β → δ)
    (cl cr : Nat) :
    runChainCount ops (Either.left e) c = (Either.left e, c) ∧
    (runChainCount ops (Either.left e) c).1.fold onError onSuccess = onError e ∧
    (runChainCount ops (Either.left e) c).1.foldCount onError onSuccess cl cr =
      (onError e, cl + 1, cr) := by
  have h : runChainCount ops (Either.left e) c = (Either.left e, c) := by
    induction ops generalizing c with
    | nil => rfl
    | cons op ops ih =>
        cases op with
        | map fn => simpa [runChainCount, Either.mapCount] using ih c
        | flatMap fn => simpa [runChainCount, Either.flatMapCount] using ih c
  exact ⟨h, by rw [h]; rfl, by rw [h]; rfl⟩

/-! ### Theorems: ImmutableList claim -/

/-- C3: every mutator among append, prepend, concat, map, filter, take, drop,
reverse and sort returns a new list object and leaves the receiver's element
sequence untouched; the new object carries the operation's result. -/
theorem C3_immutable_list_mutators (α κ : Type) [LinearOrder κ] (s : Store α)
    (self other : Nat) (item : α) (fn : α → α) (pred : α → Bool) (n : Int)
    (key : α → κ) (rev : Bool) (hs : self < s.cells.length) :
    MutatorOk s self (ImmutableList.append s self item)
      (s.read self ++ [item]) ∧
    MutatorOk s self (ImmutableList.prepend s self item)
      ([item] ++ s.read self) ∧
    MutatorOk s self (ImmutableList.concat s self other)
      (s.read self ++ s.read other) ∧
    MutatorOk s self (ImmutableList.map s self fn) ((s.read self).map fn) ∧
    MutatorOk s self (ImmutableList.filter s self pred)
      ((s.read self).filter pred) ∧
    MutatorOk s self (ImmutableList.take s self n)
      (pySliceTo (s.read self) n) ∧
    MutatorOk s self (ImmutableList.drop s self n)
      (pySliceFrom (s.read self) n) ∧
    MutatorOk s self (ImmutableList.reverse s self) (s.read self).reverse ∧
    MutatorOk s self (ImmutableList.sort s self key rev)
      (pySorted (s.read self) key rev) := by
  refine ⟨append_spec s self item hs, ?_, ?_, ?_, ?_, ?_, ?_, ?_, ?_⟩
  · simpa only [ImmutableList.prepend] using
      init_alloc_spec s ([item] ++ s.read self) self hs
  · simpa only [ImmutableList.concat] using
      init_alloc_spec s (s.read self ++ s.read other) self hs
  · simpa only [ImmutableList.map] using
      init_alloc_spec s ((s.read self).map fn) self hs
  · simpa only [ImmutableList.filter] using
      init_alloc_spec s ((s.read self).filter pred) self hs
  · simpa only [ImmutableList.take] using
      init_alloc_spec s (pySliceTo (s.read self) n) self hs
  · simpa only [ImmutableList.drop] using
      init_alloc_spec s (pySliceFrom (s.read self) n) self hs
  · simpa only [ImmutableList.reverse] using
      init_alloc_spec s (s.read self).reverse self hs
  · simpa only [ImmutableList.sort] using
      init_alloc_spec s (pySorted (s.read self) key rev) self hs

theorem C3_immutable_list_mutators_witness :
    MutatorOk (Store.mk [[1, 2, 3]]) 0
      (ImmutableList.append (Store.mk [[(1 : Nat), 2, 3]]) 0 4) [1, 2, 3, 4] ∧
    (Store.mk [[(1 : Nat), 2, 3]]).read 0 = [1, 2, 3] := by
  refine ⟨?_, rfl⟩
  have h := (C3_immutable_list_mutators Nat Nat (Store.mk [[1, 2, 3]]) 0 0 4
    (fun x => x) (fun _ => true) 0 (fun x => x) false (by decide)).1
  simpa using h

/-! ### Theorems: LazySequence claims -/

/-- C4: building the pipeline infinite(start, step).map(fn).take(n) invokes
`fn` zero times (the built cursor carries its invocation counter at zero),
and forcing it with to_list terminates for every fuel of at least `n`,
producing the `n` mapped elements, invoking `fn` exactly `n` times, and
pulling exactly `n` (hence at most `n`) elements from the infinite
upstream. -/
theorem C4_lazy_map_take (β : Type) (fn : Int → β) (start step : Int)
    (n fuel : Nat) (hf : n ≤ fuel) :
    (LazySequence.take (mapIterCount fn (pullCount (infiniteIter step)))
        ((start, 0), 0) n).2.1.2 = 0 ∧
    toListFuel (isliceIter (mapIterCount fn (pullCount (infiniteIter step))))
        fuel (((start, 0), 0), n)
      = (arithMap fn start step n, (((start + step * n, n), n), 0)) := by
  refine ⟨rfl, ?_⟩
  simpa using toListFuel_pipeline fn step n fuel hf start 0 0

theorem C4_lazy_map_take_witness :
    (LazySequence.take
        (mapIterCount (fun x : Int => x * 2) (pullCount (infiniteIter 1)))
        (((0 : Int), 0), 0) 5).2.1.2 = 0 ∧
    toListFuel
        (isliceIter
          (mapIterCount (fun x : Int => x * 2) (pullCount (infiniteIter 1))))
        5 ((((0 : Int), 0), 0), 5)
      = (arithMap (fun x : Int => x * 2) 0 1 5, (((5, 5), 5), 0)) := by
  simpa using C4_lazy_map_take Int (fun x => x * 2) 0 1 5 5 (by decide)

/-- C5: on a list-backed single-pass cursor, calling drop(n) immediately
consumes min(n, number of remaining elements) elements, advancing the shared
cursor, and the returned sequence yields exactly the elements after the
dropped ones; take, by contrast, consumes nothing at call time. -/
theorem C5_lazy_drop_eager (α : Type) (l : List α) (n fuel : Nat)
    (hf : l.length ≤ fuel) :
    dropAdvance listIter n l = (l.drop n, min n l.length) ∧
    LazySequence.drop listIter l n = (listIter, l.drop n) ∧
    toListFuel listIter fuel (l.drop n) = (l.drop n, []) ∧
    (LazySequence.take listIter l n).2.1 = l := by
  refine ⟨dropAdvance_list n l, ?_, ?_, rfl⟩
  · simp [LazySequence.drop, dropAdvance_list]
  · refine toListFuel_list (l.drop n) fuel ?_
    rw [List.length_drop]
    omega

theorem C5_lazy_drop_eager_witness :
    dropAdvance listIter 2 [10, 20, 30, 40]
      = (([30, 40] : List Nat), 2) ∧
    toListFuel listIter 4 (([10, 20, 30, 40] : List Nat).drop 2)
      = ([30, 40], []) := by
  have h := C5_lazy_drop_eager Nat [10, 20, 30, 40] 2 4 (by decide)
  exact ⟨by simpa using h.1, by simpa using h.2.2.1⟩

/-! ### Theorems: Pattern dispatcher claims -/

/-- C6: whenever some case in the ordered list accepts the scrutinee, the
dispatcher returns the first accepting case's handler result, and the
patterns evaluated are exactly those of the non-accepting prefix plus the
accepting case itself — no later case is evaluated, however specific. -/
theorem C6_first_match_wins (α β : Type) [BEq α] (v : α)
    (cs₁ : List (Case α β)) (c : Case α β) (cs₂ : List (Case α β))
    (h₁ : ∀ c₀ ∈ cs₁, c₀.matches v = false) (h₂ : c.matches v = true) :
    matchCases v (cs₁ ++ c :: cs₂) = Except.ok (c.execute v) ∧
    matchCasesCount v 0 (cs₁ ++ c :: cs₂)
      = (Except.ok (c.execute v), cs₁.length + 1) := by
  refine ⟨matchCases_first v cs₁ c cs₂ h₁ h₂, ?_⟩
  simpa using matchCasesCount_first v cs₁ c cs₂ 0 h₁ h₂

theorem C6_first_match_wins_witness :
    matchCases (5 : Int)
        [Case.mk (Pattern.callable (fun x => some (decide (0 < x))))
          (Handler.const "positive"),
         Case.mk (Pattern.literal 5) (Handler.const "five")]
      = Except.ok "positive" ∧
    matchCasesCount (5 : Int) 0
        [Case.mk (Pattern.callable (fun x => some (decide (0 < x))))
          (Handler.const "positive"),
         Case.mk (Pattern.literal 5) (Handler.const "five")]
      = (Except.ok "positive", 1) := by
  have h := C6_first_match_wins Int String 5 []
    (Case.mk (Pattern.callable (fun x => some (decide (0 < x))))
      (Handler.const "positive"))
    [Case.mk (Pattern.literal 5) (Handler.const "five")]
    (by intro c₀ hc₀; cases hc₀) (by decide)
  simpa using h

/-- C7: a predicate pattern that raises on the scrutinee counts as
non-matching and its failure never escapes the dispatcher: the dispatcher
only ever fails with the "no match" error, and it fails exactly when no case
accepts. -/
theorem C7_raising_predicate_contained (α β : Type) [BEq α] (v : α)
    (p : α → Option Bool) (hd : Handler α β) (hp : p v = none)
    (cs : List (Case α β)) :
    (Case.mk (Pattern.callable p) hd).matches v = false ∧
    ((∃ e, matchCases v cs = Except.error e) ↔
      ∀ c ∈ cs, c.matches v = false) ∧
    (∀ e, matchCases v cs = Except.error e →
      e = "No matching case for value") := by
  refine ⟨?_, (matchCases_error_iff v cs).1, (matchCases_error_iff v cs).2⟩
  simp [Case.matches, hp]

theorem C7_raising_predicate_contained_witness :
    (Case.mk (Pattern.callable (fun _ : Int => (none : Option Bool)))
      (Handler.const "boom")).matches 0 = false ∧
    ((∃ e, matchCases (0 : Int)
        [Case.mk (Pattern.callable (fun _ : Int => (none : Option Bool)))
          (Handler.const "boom")] = Except.error e) ↔
      ∀ c ∈ [Case.mk (Pattern.callable (fun _ : Int => (none : Option Bool)))
          (Handler.const "boom")], Case.matches c (0 : Int) = false) ∧
    (∀ e, matchCases (0 : Int)
        [Case.mk (Pattern.callable (fun _ : Int => (none : Option Bool)))
          (Handler.const "boom")] = Except.error e →
      e = "No matching case for value") :=
  C7_raising_predicate_contained Int String 0
    (fun _ => none) (Handler.const "boom") rfl
    [Case.mk (Pattern.callable (fun _ : Int => (none : Option Bool)))
      (Handler.const "boom")]

/-! ### Theorems: function combinator claims -/

/-- C8: compose applies its functions right to left
(`compose fns x = f1(f2(...fn(x)))`), composes to the identity when given no
functions, and pipe is compose on the reversed list, applying the leftmost
function first (a left fold of application). -/
theorem C8_compose_pipe (α : Type) (functions : List (α → α)) (x : α) :
    compose functions x = applyChain functions x ∧
    compose ([] : List (α → α)) x = x ∧
    pipe functions x = compose functions.reverse x ∧
    pipe functions x = functions.foldl (fun acc f => f acc) x := by
  have hc : ∀ (fns : List (α → α)) (y : α), compose fns y = applyChain fns y := by
    intro fns y
    cases fns with
    | nil => rfl
    | cons f rest => exact compose_foldl rest f y
  refine ⟨hc functions x, rfl, rfl, ?_⟩
  show compose functions.reverse x = _
  rw [hc]
  show functions.reverse.foldr (fun f r => f r) x = _
  rw [List.foldr_reverse]

/-- C9: for a three-parameter function, supplying the three arguments across
one, two or three calls in any of the four split shapes invokes the wrapped
function on exactly those arguments, with the same result in every shape. -/
theorem C9_curry_equivalence (α β : Type) (f : α → α → α → β) (a b c : α) :
    curriedRun f [] [[a], [b], [c]] = some (f a b c) ∧
    curriedRun f [] [[a, b], [c]] = some (f a b c) ∧
    curriedRun f [] [[a], [b, c]] = some (f a b c) ∧
    curriedRun f [] [[a, b, c]] = some (f a b c) :=
  ⟨rfl, rfl, rfl, rfl⟩

end PyGraham
